import Mathlib

/-!
Shallow embedding of the audio feature extractor of the Vibehum repository
(source file: the audio analysis utilities module exporting detectTempo,
detectPitch, calculateEnergy, classifyRhythm, detectContour and
analyzeAudioBuffer), together with proofs about the claims of the
specification.

Modelling conventions
* JavaScript numbers are modelled as exact real numbers; `Math.sqrt` is
  `Real.sqrt`, `Math.floor` on non-negative arguments is natural division
  where the operands are integers, `Math.round x` is `Int.floor (x + 1/2)`
  (JavaScript rounds halves toward positive infinity).
* `Math.floor (sampleRate * 0.01)` is modelled as `sampleRate / 100` in ℕ.
  For an integer sample rate the double rounding error of the literal 0.01
  (relative error about 2e-17) can never move the product across an integer
  boundary, because the exact value sampleRate/100 either is an integer
  (then the product rounds back to it) or is at distance at least 1/100
  from the nearest integer; so the floor agrees with exact arithmetic.
* A JavaScript expression that yields NaN and is only compared (every
  comparison with NaN is false) is traced by hand and the branch the code
  then takes is written out explicitly, with a comment quoting the trace.
  A NaN that is returned to the caller is encoded as `Option.none`.
* A loop of the source that diverges on a degenerate input (the envelope
  loop when the hop size is 0, the octave folding loop on an infinite
  frequency) makes the embedded function return `Option.none` on exactly
  those inputs: fallible code returns an `Option`, and `none` marks the
  inputs on which the source never produces a value.
-/

namespace Vibehum

/-- A decoded one-channel audio buffer: the PCM samples of channel 0 plus the
sample rate in Hz.  The source operates on Web Audio API AudioBuffer objects,
whose sample rate is a positive number; a buffer with sample rate 0 cannot be
constructed there, so positivity is part of the input type. -/
structure AudioBuffer where
  data : List ℝ
  sampleRate : ℕ
  sampleRate_pos : 0 < sampleRate

/-- JavaScript `Math.round`: round half toward positive infinity. -/
noncomputable def jsRound (x : ℝ) : ℤ := ⌊x + 1 / 2⌋

/-- Rounding to one decimal, `Math.round(x * 10) / 10` in the source. -/
noncomputable def jsRound1 (x : ℝ) : ℝ := (jsRound (x * 10) : ℝ) / 10

/-- Rounding to two decimals, `Math.round(x * 100) / 100` in the source. -/
noncomputable def jsRound2 (x : ℝ) : ℝ := (jsRound (x * 100) : ℝ) / 100

/-- Sum of the squares of a list of samples (the accumulation loops
`sum += d[i] * d[i]` of the source). -/
noncomputable def sumSq (l : List ℝ) : ℝ := (l.map (fun x => x * x)).sum

/-- The NOTE_FREQUENCIES table of the source: the 12 equal-tempered pitch
classes of the octave starting at middle C. -/
noncomputable def NOTE_FREQUENCIES : List (String × ℝ) :=
  [("C", 261.63), ("C#", 277.18), ("D", 293.66), ("D#", 311.13),
   ("E", 329.63), ("F", 349.23), ("F#", 369.99), ("G", 392.00),
   ("G#", 415.30), ("A", 440.00), ("A#", 466.16), ("B", 493.88)]

/-- The 12 chromatic note names, in table order. -/
noncomputable def noteNames : List String := NOTE_FREQUENCIES.map Prod.fst

/-- Auxiliary lemma for the termination measures of the folding loops:
the ceiling of a real strictly above 1 strictly shrinks when halved. -/
theorem ceil_half_lt {t : ℝ} (h : 1 < t) : ⌈t / 2⌉₊ < ⌈t⌉₊ := by
  have h2 : 2 ≤ ⌈t⌉₊ := by
    have : 1 < ⌈t⌉₊ := Nat.lt_ceil.mpr (by exact_mod_cast h)
    omega
  have hle : ⌈t / 2⌉₊ ≤ ⌈t⌉₊ - 1 := by
    apply Nat.ceil_le.mpr
    have hcast : ((⌈t⌉₊ - 1 : ℕ) : ℝ) = (⌈t⌉₊ : ℝ) - 1 := by
      have h1 : 1 ≤ ⌈t⌉₊ := by omega
      push_cast [Nat.cast_sub h1]
      ring
    rw [hcast]
    have ht : t ≤ (⌈t⌉₊ : ℝ) := Nat.le_ceil t
    have h2r : (2 : ℝ) ≤ (⌈t⌉₊ : ℝ) := by exact_mod_cast h2
    linarith
  omega

/-- First folding loop of `frequencyToNote`:
`while (normalized < 261.63) { normalized *= 2; octave-- }`.
The source reaches this loop only with a positive frequency (non-positive
frequencies return early), and on positive input the loop terminates; the
`0 < x` conjunct makes the embedded function return its argument on the
non-positive inputs the source never passes here. -/
noncomputable def foldUp (x : ℝ) (oct : ℤ) : ℝ × ℤ :=
  if h : 0 < x ∧ x < 261.63 then foldUp (2 * x) (oct - 1) else (x, oct)
termination_by Nat.ceil (261.63 / x)
decreasing_by
  have h1 : (1 : ℝ) < 261.63 / x := by
    rw [lt_div_iff₀ h.1]; linarith [h.2]
  have heq : 261.63 / (2 * x) = 261.63 / x / 2 := by ring
  rw [heq]; exact ceil_half_lt h1

/-- Second folding loop of `frequencyToNote`:
`while (normalized >= 261.63 * 2) { normalized /= 2; octave++ }`. -/
noncomputable def foldDown (x : ℝ) (oct : ℤ) : ℝ × ℤ :=
  if h : 261.63 * 2 ≤ x then foldDown (x / 2) (oct + 1) else (x, oct)
termination_by Nat.ceil (x / 261.63)
decreasing_by
  have h1 : (1 : ℝ) < x / 261.63 := by
    rw [lt_div_iff₀ (by norm_num : (0:ℝ) < 261.63)]; linarith
  have heq : x / 2 / 261.63 = x / 261.63 / 2 := by ring
  rw [heq]; exact ceil_half_lt h1

/-- Both folding loops in sequence: the frequency folded into the reference
octave, together with the octave number (the source starts at octave 4). -/
noncomputable def normalizeFreq (f : ℝ) : ℝ × ℤ :=
  foldDown (foldUp f 4).1 (foldUp f 4).2

/-- Nearest-note scan of `frequencyToNote`: starts with the first table entry
and its distance, and replaces the best entry whenever a strictly smaller
distance is found (so the first minimum wins ties). -/
noncomputable def scanClosest (x : ℝ) : (String × ℝ) × ℝ :=
  (NOTE_FREQUENCIES.drop 1).foldl
    (fun st p => if |x - p.2| < st.2 then (p, |x - p.2|) else st)
    (("C", (261.63 : ℝ)), |x - 261.63|)

/-- The `frequencyToNote` function of the source: non-positive frequencies
map to C4; otherwise the frequency is folded into the reference octave and
matched against the nearest pitch class. -/
noncomputable def frequencyToNote (freq : ℝ) : String × ℤ :=
  if freq ≤ 0 then ("C", 4)
  else
    let nrm := normalizeFreq freq
    ((scanClosest nrm.1).1.1, nrm.2)

/-- Hop size of the energy envelope: `Math.floor(sampleRate * 0.01)`
(about 10 ms of samples); see the header note on why natural division by 100
is the faithful model. -/
def hopSizeOf (sr : ℕ) : ℕ := sr / 100

/-- Number of envelope frames produced by the loop
`for (i = 0; i < channelData.length - hopSize; i += hopSize)` for a positive
hop: the indices are k * hop for k * hop < len - hop, hence (len - 1) / hop
frames.  Note the loop guard uses a strict bound against len - hop, so when
hop divides len exactly the final complete hop is discarded as well. -/
def numFrames (len hop : ℕ) : ℕ := (len - 1) / hop

/-- Energy envelope of `detectTempo`: one root-mean-square value per complete
hop scanned by the loop (requires hop > 0; `detectTempo` diverges otherwise
and never reaches this computation on a nonempty buffer). -/
noncomputable def envelopeOf (data : List ℝ) (hop : ℕ) : List ℝ :=
  (List.range (numFrames data.length hop)).map
    (fun k => Real.sqrt (sumSq ((data.drop (k * hop)).take hop) / hop))

/-- Normalization divisor of the envelope:
`Math.max(...envelope, 0.0001)`. -/
noncomputable def maxEnvOf (env : List ℝ) : ℝ := env.foldl max 0.0001

/-- Normalized envelope: every value divided by the (floored) maximum. -/
noncomputable def normalizedOf (env : List ℝ) : List ℝ :=
  env.map (fun v => v / maxEnvOf env)

/-- Acceptance step of the onset loop: push the candidate timestamp unless it
is within 100 ms of the previously accepted onset
(`onsets.length === 0 || timeMs - onsets[onsets.length - 1] > 100`). -/
noncomputable def pushOnset (acc : List ℝ) (timeMs : ℝ) : List ℝ :=
  match acc.getLast? with
  | none => acc ++ [timeMs]
  | some last => if 100 < timeMs - last then acc ++ [timeMs] else acc

/-- One iteration of the onset-detection loop at envelope index i: compute the
trailing average of the previous 8 values, the rising threshold, and test the
local-peak condition; on success the candidate timestamp goes through
`pushOnset`. -/
noncomputable def onsetStep (env : List ℝ) (hop sr : ℕ) (acc : List ℝ) (i : ℕ) :
    List ℝ :=
  let avg := ((env.drop (i - 8)).take 8).sum / 8
  let threshold := avg * 1.5 + 0.05
  let v := env.getD i 0
  if threshold < v ∧ env.getD (i - 1) 0 < v ∧ env.getD (i + 1) 0 ≤ v then
    pushOnset acc (((i * hop : ℕ) : ℝ) / (sr : ℝ) * 1000)
  else acc

/-- Onset detection over a normalized envelope: the loop
`for (i = windowSize; i < normalized.length - 1; i++)` with windowSize = 8. -/
noncomputable def onsetsOf (env : List ℝ) (hop sr : ℕ) : List ℝ :=
  (List.range' 8 (env.length - 1 - 8)).foldl (onsetStep env hop sr) []

/-- Consecutive inter-onset intervals: `intervals[i-1] = onsets[i] - onsets[i-1]`. -/
noncomputable def intervalsOf (l : List ℝ) : List ℝ :=
  List.zipWith (fun a b => b - a) l (l.drop 1)

/-- Ascending numeric sort, `intervals.sort((a, b) => a - b)` in the source. -/
noncomputable def sortReal (l : List ℝ) : List ℝ :=
  l.mergeSort (fun a b => decide (a ≤ b))

/-- Median interval used by the tempo estimator:
`sorted[Math.floor(intervals.length / 2)]`. -/
noncomputable def medianIntervalOf (intervals : List ℝ) : ℝ :=
  (sortReal intervals).getD (intervals.length / 2) 0

/-- Octave-folding loop `while (bpm > 200) bpm /= 2`. -/
noncomputable def halveBpm (x : ℝ) : ℝ :=
  if h : 200 < x then halveBpm (x / 2) else x
termination_by Nat.ceil (x / 200)
decreasing_by
  have h1 : (1 : ℝ) < x / 200 := by
    rw [lt_div_iff₀ (by norm_num : (0:ℝ) < 200)]; linarith
  have heq : x / 2 / 200 = x / 200 / 2 := by ring
  rw [heq]; exact ceil_half_lt h1

/-- Octave-folding loop `while (bpm < 60) bpm *= 2`.  The source reaches this
loop only with a positive bpm (60000 divided by a positive median interval),
where it terminates; the `0 < x` conjunct makes the embedded function return
its argument on the non-positive inputs the source never passes here. -/
noncomputable def doubleBpm (x : ℝ) : ℝ :=
  if h : 0 < x ∧ x < 60 then doubleBpm (2 * x) else x
termination_by Nat.ceil (60 / x)
decreasing_by
  have h1 : (1 : ℝ) < 60 / x := by
    rw [lt_div_iff₀ h.1]; linarith [h.2]
  have heq : 60 / (2 * x) = 60 / x / 2 := by ring
  rw [heq]; exact ceil_half_lt h1

/-- Result record of `detectTempo`: `{ bpm: Math.round(bpm), onsets }`. -/
structure TempoResult where
  bpm : ℤ
  onsets : List ℝ

/-- The `detectTempo` function of the source.  When the hop size is 0 (sample
rate below 100 Hz) and the buffer is nonempty, the source loop
`for (i = 0; i < channelData.length - hopSize; i += hopSize)` never advances
and diverges; those inputs map to `none`. -/
noncomputable def detectTempo (buf : AudioBuffer) : Option TempoResult :=
  let hop := hopSizeOf buf.sampleRate
  if hop = 0 ∧ buf.data ≠ [] then none
  else
    let env := normalizedOf (envelopeOf buf.data hop)
    let onsets := onsetsOf env hop buf.sampleRate
    if onsets.length < 2 then some ⟨120, onsets⟩
    else
      let intervals := intervalsOf onsets
      let bpm := 60000 / medianIntervalOf intervals
      some ⟨jsRound (doubleBpm (halveBpm bpm)), onsets⟩

/-- Result record of `calculateEnergy`; the energy field is `none` exactly
when the source computes NaN (division of 0 by 0 on an empty buffer). -/
structure EnergyResult where
  energy : Option ℝ
  level : String

/-- Root-mean-square of the whole buffer, as computed by `calculateEnergy`:
the squares are summed over every sample and divided by the sample count.
The division is unguarded in the source; on an empty buffer it is 0 / 0. -/
noncomputable def rmsOf (buf : AudioBuffer) : ℝ :=
  Real.sqrt (sumSq buf.data / (buf.data.length : ℝ))

/-- The `calculateEnergy` function of the source.  On an empty buffer the
source divides 0 by 0: rms, energy and the returned energy are NaN, and since
`NaN < 0.3` and `NaN < 0.6` are both false the level falls through to "high";
that traced branch is written out explicitly. -/
noncomputable def calculateEnergy (buf : AudioBuffer) : EnergyResult :=
  if buf.data.length = 0 then ⟨none, "high"⟩
  else
    let energy := min (rmsOf buf * 3) 1
    ⟨some (jsRound2 energy),
     if energy < 0.3 then "low" else if energy < 0.6 then "moderate" else "high"⟩

/-- Result record of `detectPitch`. -/
structure PitchResult where
  frequency : ℝ
  note : String
  key : String

/-- Middle segment extracted by `detectPitch`: at most 2 seconds centered in
the buffer. -/
def segmentOf (buf : AudioBuffer) : List ℝ :=
  let segLen := min buf.data.length (buf.sampleRate * 2)
  (buf.data.drop ((buf.data.length - segLen) / 2)).take segLen

/-- Smallest candidate lag, `Math.floor(sampleRate / 1000)`. -/
def minLagOf (buf : AudioBuffer) : ℕ := buf.sampleRate / 1000

/-- Largest candidate lag, `Math.floor(sampleRate / 60)`. -/
def maxLagOf (buf : AudioBuffer) : ℕ := buf.sampleRate / 60

/-- Candidate lags scanned by the loop
`for (lag = minLag; lag <= Math.min(maxLag, segment.length / 2); lag++)`.
The bound `segment.length / 2` is a float in the source; an integer lag is
at most that float exactly when it is at most the floored half length. -/
def lagsOf (buf : AudioBuffer) : List ℕ :=
  let hi := min (maxLagOf buf) ((segmentOf buf).length / 2)
  if minLagOf buf ≤ hi then List.range' (minLagOf buf) (hi - minLagOf buf + 1)
  else []

/-- Normalized autocorrelation of the segment at one lag, using at most the
first 4096 comparable samples; the normalization divides only when the
denominator is positive (`if (normFactor > 0) correlation /= normFactor`). -/
noncomputable def correlationAt (seg : List ℝ) (lag : ℕ) : ℝ :=
  let cl := min (seg.length - lag) 4096
  let c := ((List.range cl).map (fun i => seg.getD i 0 * seg.getD (i + lag) 0)).sum
  let n1 := ((List.range cl).map (fun i => seg.getD i 0 * seg.getD i 0)).sum
  let n2 := ((List.range cl).map
    (fun i => seg.getD (i + lag) 0 * seg.getD (i + lag) 0)).sum
  let nf := Real.sqrt (n1 * n2)
  if 0 < nf then c / nf else c

/-- Best-correlation scan: state (bestCorrelation, bestLag), initialized to
(-1, minLag), updated on strict improvement. -/
noncomputable def bestStateOf (buf : AudioBuffer) : ℝ × ℕ :=
  (lagsOf buf).foldl
    (fun st lag =>
      if st.1 < correlationAt (segmentOf buf) lag
      then (correlationAt (segmentOf buf) lag, lag) else st)
    (-1, minLagOf buf)

/-- The lag selected by the autocorrelation scan. -/
noncomputable def bestLagOf (buf : AudioBuffer) : ℕ := (bestStateOf buf).2

/-- The detected frequency, `sampleRate / bestLag`. -/
noncomputable def detectedFreqOf (buf : AudioBuffer) : ℝ :=
  (buf.sampleRate : ℝ) / (bestLagOf buf : ℝ)

/-- Major/minor heuristic of `detectPitch`: `rms.energy > 0.4 ? major : minor`
on the energy field returned by `calculateEnergy`.  When that field is NaN
(empty buffer) the comparison is false and the quality is "minor". -/
noncomputable def keyQualityOf (buf : AudioBuffer) : String :=
  match (calculateEnergy buf).energy with
  | some e => if 0.4 < e then "major" else "minor"
  | none => "minor"

/-- The `detectPitch` function of the source.  When `minLag` is 0 (sample
rate below 1000 Hz) the lag-0 candidate always wins the scan (its normalized
correlation is 1 on a nonzero window and 0 on a zero window, both above the
initial -1), the detected frequency `sampleRate / 0` is Infinity, and the
halving loop of `frequencyToNote` then diverges; those inputs map to `none`. -/
noncomputable def detectPitch (buf : AudioBuffer) : Option PitchResult :=
  if minLagOf buf = 0 then none
  else
    some { frequency := jsRound1 (detectedFreqOf buf)
           note := (frequencyToNote (detectedFreqOf buf)).1
           key := (frequencyToNote (detectedFreqOf buf)).1 ++ " " ++ keyQualityOf buf }

/-- The `classifyRhythm` function of the source. -/
noncomputable def classifyRhythm (onsets : List ℝ) : String :=
  if onsets.length < 3 then "straight"
  else
    let intervals := intervalsOf onsets
    let mean := intervals.sum / (intervals.length : ℝ)
    let variance := (intervals.map (fun v => (v - mean) ^ 2)).sum / (intervals.length : ℝ)
    let cv := Real.sqrt variance / mean
    let swingScore :=
      if 4 ≤ intervals.length then
        (((List.range (intervals.length / 2)).map (fun k =>
          let a := intervals.getD (2 * k) 0
          let b := intervals.getD (2 * k + 1) 0
          let ratio := a / (if b = 0 then a else b)
          if 1.3 < ratio ∧ ratio < 2.2 then (1 : ℝ) else 0)).sum)
          / ((intervals.length / 2 : ℕ) : ℝ)
      else 0
    if 0.5 < swingScore then "swing"
    else if 0.35 < cv then "syncopated"
    else "straight"

/-- Zero-crossing count of a segment: sign changes between consecutive
samples, with `>= 0` against `< 0` exactly as in the source. -/
noncomputable def zeroCrossings (l : List ℝ) : ℕ :=
  ((List.range' 1 (l.length - 1)).map (fun i =>
    if (0 ≤ l.getD i 0 ∧ l.getD (i - 1) 0 < 0) ∨
       (l.getD i 0 < 0 ∧ 0 ≤ l.getD (i - 1) 0)
    then (1 : ℕ) else 0)).sum

/-- Pitch proxies of the 6 contour segments:
`estimatedFreq = (zeroCrossings * sampleRate) / (2 * segment.length)`. -/
noncomputable def segmentPitchesOf (buf : AudioBuffer) : List ℝ :=
  let segLength := buf.data.length / 6
  (List.range 6).map (fun seg =>
    let sgmt := (buf.data.drop (seg * segLength)).take segLength
    ((zeroCrossings sgmt : ℝ) * (buf.sampleRate : ℝ)) / (2 * (sgmt.length : ℝ)))

/-- The `detectContour` function of the source.  When the buffer holds fewer
than 6 samples each segment is empty and every estimated frequency is the
NaN `0 / 0`; the regression sums and the slope are then NaN, `avgPitch > 0`
is false so normalizedSlope is 0, every direction-change comparison on NaN is
false, and the function returns "oscillating"; that traced branch is written
out explicitly. -/
noncomputable def detectContour (buf : AudioBuffer) : String :=
  if buf.data.length / 6 = 0 then "oscillating"
  else
    let p := segmentPitchesOf buf
    let n := p.length
    let sumX := ((List.range n).map (fun (i : ℕ) => (i : ℝ))).sum
    let sumY := ((List.range n).map (fun (i : ℕ) => p.getD i 0)).sum
    let sumXY := ((List.range n).map (fun (i : ℕ) => (i : ℝ) * p.getD i 0)).sum
    let sumX2 := ((List.range n).map (fun (i : ℕ) => (i : ℝ) * (i : ℝ))).sum
    let slope := ((n : ℝ) * sumXY - sumX * sumY) / ((n : ℝ) * sumX2 - sumX * sumX)
    let avgPitch := sumY / (n : ℝ)
    let normalizedSlope := if 0 < avgPitch then slope / avgPitch else 0
    let directionChanges := ((List.range' 2 (n - 2)).map (fun i =>
      let prev := p.getD (i - 1) 0 - p.getD (i - 2) 0
      let curr := p.getD i 0 - p.getD (i - 1) 0
      if (0 < prev ∧ curr < 0) ∨ (prev < 0 ∧ 0 < curr) then (1 : ℕ) else 0)).sum
    if 2 ≤ directionChanges then "oscillating"
    else if 0.02 < normalizedSlope then "ascending"
    else if normalizedSlope < -0.02 then "descending"
    else "oscillating"

/-- The final record assembled by `analyzeAudioBuffer`. -/
structure AnalysisResult where
  tempo : ℤ
  key : String
  note : String
  frequency : ℝ
  energy : Option ℝ
  energyLevel : String
  rhythm : String
  contour : String

/-- The `analyzeAudioBuffer` function of the source: run the components in
order and assemble the result record.  It diverges exactly when one of the
component calls does. -/
noncomputable def analyzeAudioBuffer (buf : AudioBuffer) : Option AnalysisResult :=
  match detectTempo buf, detectPitch buf with
  | some t, some p =>
      let e := calculateEnergy buf
      some { tempo := t.bpm, key := p.key, note := p.note,
             frequency := p.frequency, energy := e.energy,
             energyLevel := e.level, rhythm := classifyRhythm t.onsets,
             contour := detectContour buf }
  | _, _ => none

/-! Concrete buffers used by counterexamples and witnesses. -/

/-- A one-sample silent buffer at 1000 Hz. -/
noncomputable def bufZero : AudioBuffer := ⟨[0], 1000, by norm_num⟩

/-- The empty buffer at 1000 Hz. -/
noncomputable def bufEmpty : AudioBuffer := ⟨[], 1000, by norm_num⟩

/-- A six-sample silent buffer at 1000 Hz. -/
noncomputable def bufSilent6 : AudioBuffer := ⟨[0, 0, 0, 0, 0, 0], 1000, by norm_num⟩

/-- A one-sample buffer whose energy rounds from 0.297 up to 0.30. -/
noncomputable def bufEnergy : AudioBuffer := ⟨[0.099], 44100, by norm_num⟩

/-- One period of a 0.2-amplitude sine wave sampled at 4 samples per period. -/
noncomputable def bufSine : AudioBuffer := ⟨[0, 0.2, 0, -0.2], 44100, by norm_num⟩

/-- An eight-sample silent buffer at 20930 Hz; the silent pitch scan detects
20930 / 20 = 1046.5 Hz, whose folded value is exactly 523.25 Hz. -/
noncomputable def bufFold : AudioBuffer := ⟨[0, 0, 0, 0, 0, 0, 0, 0], 20930, by norm_num⟩

/-! Generic helper lemmas. -/

/-- Evaluation rule for `jsRound` when the target integer is known. -/
theorem jsRound_eq (x : ℝ) (z : ℤ) (h1 : (z : ℝ) ≤ x + 1 / 2) (h2 : x + 1 / 2 < z + 1) :
    jsRound x = z := by
  rw [jsRound]; exact Int.floor_eq_iff.mpr ⟨h1, h2⟩

/-- Rounding stays inside integer bounds that contain the argument. -/
theorem jsRound_mem (x : ℝ) (a b : ℤ) (h1 : (a : ℝ) ≤ x) (h2 : x ≤ (b : ℝ)) :
    a ≤ jsRound x ∧ jsRound x ≤ b := by
  constructor
  · exact Int.le_floor.mpr (by linarith)
  · have : jsRound x < b + 1 := Int.floor_lt.mpr (by push_cast; linarith)
    omega

/-- A value at least 1 rounds to a positive number of tenths. -/
theorem jsRound1_pos (x : ℝ) (h : 1 ≤ x) : 0 < jsRound1 x := by
  rw [jsRound1]
  have h10 : (10 : ℤ) ≤ jsRound (x * 10) := by
    rw [jsRound]; exact Int.le_floor.mpr (by push_cast; linarith)
  have h10r : (10 : ℝ) ≤ (jsRound (x * 10) : ℝ) := by exact_mod_cast h10
  linarith

/-- The initial value is below the result of a left fold by max. -/
theorem le_foldl_max (l : List ℝ) (a : ℝ) : a ≤ l.foldl max a := by
  induction l generalizing a with
  | nil => simp
  | cons b t ih => exact le_trans (le_max_left a b) (ih (max a b))

/-- Every member is below the result of a left fold by max. -/
theorem mem_le_foldl_max (l : List ℝ) (a x : ℝ) (hx : x ∈ l) : x ≤ l.foldl max a := by
  induction l generalizing a with
  | nil => cases hx
  | cons b t ih =>
      rcases List.mem_cons.mp hx with rfl | hx
      · exact le_trans (le_max_right a x) (le_foldl_max t (max a x))
      · exact ih (max a b) hx

/-- The result of a left fold by max is the initial value or a member. -/
theorem foldl_max_cases (l : List ℝ) (a : ℝ) :
    l.foldl max a = a ∨ l.foldl max a ∈ l := by
  induction l generalizing a with
  | nil => exact Or.inl rfl
  | cons b t ih =>
      rcases ih (max a b) with h | h
      · rcases max_cases a b with ⟨hm, _⟩ | ⟨hm, _⟩
        · exact Or.inl (by simpa [hm] using h)
        · refine Or.inr (List.mem_cons.mpr (Or.inl ?_))
          simpa [hm] using h
      · exact Or.inr (List.mem_cons.mpr (Or.inr h))

/-- Value lookup with default 0 in an all-zero list is 0. -/
theorem getD_of_all_zero (l : List ℝ) (n : ℕ) (h : ∀ x ∈ l, x = 0) :
    l.getD n 0 = 0 := by
  rw [List.getD_eq_getElem?_getD]
  cases hn : l[n]? with
  | none => rfl
  | some v => exact h v (List.getElem?_mem hn)

/-- Sum of squares of an all-zero list is 0. -/
theorem sumSq_of_all_zero (l : List ℝ) (h : ∀ x ∈ l, x = 0) : sumSq l = 0 := by
  rw [sumSq]
  apply List.sum_eq_zero
  intro y hy
  rcases List.mem_map.mp hy with ⟨x, hx, rfl⟩
  rw [h x hx, mul_zero]

/-- Members of a contiguous slice are members of the list. -/
theorem mem_of_mem_slice {l : List ℝ} {a b : ℕ} {x : ℝ}
    (h : x ∈ (l.drop a).take b) : x ∈ l :=
  List.mem_of_mem_drop (List.mem_of_mem_take h)

/-! Bounds for the octave-folding loops. -/

/-- The halving loop returns a value in (0, 200] on positive input. -/
theorem halveBpm_bounds (x : ℝ) (hx : 0 < x) : 0 < halveBpm x ∧ halveBpm x ≤ 200 := by
  induction x using halveBpm.induct with
  | case1 x h ih =>
      rw [halveBpm, dif_pos h]
      exact ih (by linarith)
  | case2 x h =>
      rw [halveBpm, dif_neg h]
      exact ⟨hx, by linarith [not_lt.mp h]⟩

/-- The doubling loop returns a value in [60, 200] on input in (0, 200]. -/
theorem doubleBpm_bounds (x : ℝ) (hx : 0 < x) (hx2 : x ≤ 200) :
    60 ≤ doubleBpm x ∧ doubleBpm x ≤ 200 := by
  induction x using doubleBpm.induct with
  | case1 x h ih =>
      rw [doubleBpm, dif_pos h]
      exact ih (by linarith [h.1]) (by linarith [h.2])
  | case2 x h =>
      rw [doubleBpm, dif_neg h]
      push_neg at h
      exact ⟨by linarith [h hx], hx2⟩

/-- The doubling-up loop of the note fold reaches at least the bottom of the
reference octave on positive input. -/
theorem foldUp_ge (x : ℝ) (oct : ℤ) (hx : 0 < x) : 261.63 ≤ (foldUp x oct).1 := by
  induction x, oct using foldUp.induct with
  | case1 x oct h ih =>
      rw [foldUp, dif_pos h]
      exact ih (by linarith [h.1])
  | case2 x oct h =>
      rw [foldUp, dif_neg h]
      push_neg at h
      exact h hx

/-- The halving loop of the note fold ends strictly below the top of the
reference octave. -/
theorem foldDown_lt (x : ℝ) (oct : ℤ) : (foldDown x oct).1 < 261.63 * 2 := by
  induction x, oct using foldDown.induct with
  | case1 x oct h ih =>
      rw [foldDown, dif_pos h]
      exact ih
  | case2 x oct h =>
      rw [foldDown, dif_neg h]
      exact lt_of_not_le h

/-- The halving loop of the note fold stays at or above the bottom of the
reference octave when it starts there. -/
theorem foldDown_ge (x : ℝ) (oct : ℤ) (hx : 261.63 ≤ x) :
    261.63 ≤ (foldDown x oct).1 := by
  induction x, oct using foldDown.induct with
  | case1 x oct h ih =>
      rw [foldDown, dif_pos h]
      exact ih (by linarith)
  | case2 x oct h =>
      rw [foldDown, dif_neg h]
      exact hx

/-- The composed fold lands inside the reference octave on positive input. -/
theorem normalizeFreq_range (f : ℝ) (hf : 0 < f) :
    261.63 ≤ (normalizeFreq f).1 ∧ (normalizeFreq f).1 < 261.63 * 2 := by
  rw [normalizeFreq]
  exact ⟨foldDown_ge _ _ (foldUp_ge f 4 hf), foldDown_lt _ _⟩

/-! Invariants of the onset accumulator and facts about detectTempo. -/

/-- Gap invariant of the onset list: consecutive entries are more than
100 ms apart. -/
def GapChain (l : List ℝ) : Prop := List.Chain' (fun a b => a + 100 < b) l

/-- The acceptance step preserves the gap invariant. -/
theorem pushOnset_gap (acc : List ℝ) (t : ℝ) (h : GapChain acc) :
    GapChain (pushOnset acc t) := by
  unfold pushOnset
  cases hl : acc.getLast? with
  | none =>
      simp only
      have hacc : acc = [] := by simpa using hl
      subst hacc
      simp [GapChain]
  | some last =>
      simp only
      by_cases hgap : 100 < t - last
      · rw [if_pos hgap]
        rw [GapChain, List.chain'_append]
        refine ⟨h, List.chain'_singleton t, ?_⟩
        intro x hx y hy
        simp at hy
        subst hy
        rw [hl] at hx
        simp at hx
        subst hx
        linarith
      · rw [if_neg hgap]; exact h

/-- One onset-loop iteration preserves the gap invariant. -/
theorem onsetStep_gap (env : List ℝ) (hop sr : ℕ) (acc : List ℝ) (i : ℕ)
    (h : GapChain acc) : GapChain (onsetStep env hop sr acc i) := by
  rw [onsetStep]
  split_ifs with hc
  · exact pushOnset_gap acc _ h
  · exact h

/-- The full onset loop preserves the gap invariant. -/
theorem foldl_onsetStep_gap (env : List ℝ) (hop sr : ℕ) (l : List ℕ) (acc : List ℝ)
    (h : GapChain acc) : GapChain (l.foldl (onsetStep env hop sr) acc) := by
  induction l generalizing acc with
  | nil => exact h
  | cons i t ih => exact ih _ (onsetStep_gap env hop sr acc i h)

/-- The onsets of any envelope satisfy the gap invariant. -/
theorem onsetsOf_gap (env : List ℝ) (hop sr : ℕ) : GapChain (onsetsOf env hop sr) := by
  rw [onsetsOf]
  exact foldl_onsetStep_gap env hop sr _ [] (by simp [GapChain])

/-- Unfolding rule for consecutive intervals. -/
theorem intervalsOf_cons (a b : ℝ) (t : List ℝ) :
    intervalsOf (a :: b :: t) = (b - a) :: intervalsOf (b :: t) := by
  simp [intervalsOf]

/-- Intervals of a gap chain all exceed 100 ms. -/
theorem intervals_gt (l : List ℝ) (hc : GapChain l) :
    ∀ x ∈ intervalsOf l, 100 < x := by
  induction l with
  | nil => intro x hx; simp [intervalsOf] at hx
  | cons a t ih =>
      cases t with
      | nil => intro x hx; simp [intervalsOf] at hx
      | cons b t2 =>
          intro x hx
          rw [intervalsOf_cons] at hx
          rcases List.mem_cons.mp hx with rfl | hx2
          · have := (List.chain'_cons.mp hc).1
            linarith
          · exact ih (List.chain'_cons.mp hc).2 x hx2

/-- The sorted median of a list whose members all exceed 100 exceeds 100. -/
theorem median_gt (l : List ℝ) (hall : ∀ x ∈ intervalsOf l, 100 < x)
    (h1 : 0 < (intervalsOf l).length) :
    100 < medianIntervalOf (intervalsOf l) := by
  rw [medianIntervalOf]
  have hperm : List.Perm (sortReal (intervalsOf l)) (intervalsOf l) :=
    List.mergeSort_perm (intervalsOf l) _
  have hk : (intervalsOf l).length / 2 < (sortReal (intervalsOf l)).length := by
    rw [hperm.length_eq]; omega
  have hg := List.getD_eq_getElem (sortReal (intervalsOf l)) 0 hk
  rw [hg]
  exact hall _ (hperm.mem_iff.mp (List.getElem_mem hk))

/-- Destructor for a successful detectTempo run: the onsets come from the
onset loop over the normalized envelope, and the bpm is either the default
120 (fewer than 2 onsets) or the folded and rounded median tempo. -/
theorem detectTempo_some (buf : AudioBuffer) (r : TempoResult)
    (h : detectTempo buf = some r) :
    r.onsets = onsetsOf (normalizedOf (envelopeOf buf.data (hopSizeOf buf.sampleRate)))
      (hopSizeOf buf.sampleRate) buf.sampleRate ∧
    ((r.onsets.length < 2 ∧ r.bpm = 120) ∨
     (2 ≤ r.onsets.length ∧
      r.bpm = jsRound (doubleBpm (halveBpm
        (60000 / medianIntervalOf (intervalsOf r.onsets)))))) := by
  simp only [detectTempo] at h
  by_cases hA : hopSizeOf buf.sampleRate = 0 ∧ buf.data ≠ []
  · rw [if_pos hA] at h
    exact absurd h (by simp)
  · rw [if_neg hA] at h
    by_cases hB : (onsetsOf (normalizedOf (envelopeOf buf.data (hopSizeOf buf.sampleRate)))
        (hopSizeOf buf.sampleRate) buf.sampleRate).length < 2
    · rw [if_pos hB] at h
      injection h with h2
      cases h2
      exact ⟨rfl, Or.inl ⟨hB, rfl⟩⟩
    · rw [if_neg hB] at h
      injection h with h2
      cases h2
      exact ⟨rfl, Or.inr ⟨not_lt.mp hB, rfl⟩⟩

/-- A successful detectTempo run yields a bpm in [60, 200]. -/
theorem detectTempo_bpm_range (buf : AudioBuffer) (r : TempoResult)
    (h : detectTempo buf = some r) : 60 ≤ r.bpm ∧ r.bpm ≤ 200 := by
  obtain ⟨honsets, hcase⟩ := detectTempo_some buf r h
  rcases hcase with ⟨_, hbpm⟩ | ⟨hlen, hbpm⟩
  · rw [hbpm]; norm_num
  · have hchain : GapChain r.onsets := by rw [honsets]; exact onsetsOf_gap _ _ _
    have hilen : 0 < (intervalsOf r.onsets).length := by
      have hl2 : (intervalsOf r.onsets).length = min r.onsets.length (r.onsets.length - 1) := by
        simp [intervalsOf]
      omega
    have hmed : 100 < medianIntervalOf (intervalsOf r.onsets) :=
      median_gt _ (intervals_gt _ hchain) hilen
    have hpos : 0 < 60000 / medianIntervalOf (intervalsOf r.onsets) := by positivity
    have hh := halveBpm_bounds _ hpos
    have hd := doubleBpm_bounds _ hh.1 hh.2
    rw [hbpm]
    exact jsRound_mem _ 60 200 (by exact_mod_cast hd.1) (by exact_mod_cast hd.2)

/-- detectTempo returns a value whenever the hop size is positive. -/
theorem detectTempo_isSome (buf : AudioBuffer) (h : hopSizeOf buf.sampleRate ≠ 0) :
    ∃ r, detectTempo buf = some r := by
  simp only [detectTempo]
  rw [if_neg (by tauto)]
  by_cases hB : (onsetsOf (normalizedOf (envelopeOf buf.data (hopSizeOf buf.sampleRate)))
      (hopSizeOf buf.sampleRate) buf.sampleRate).length < 2
  · rw [if_pos hB]; exact ⟨_, rfl⟩
  · rw [if_neg hB]; exact ⟨_, rfl⟩

/-! Facts about the pitch detector. -/

theorem foldl_scan_mem (l : List (String × ℝ)) (x : ℝ) (st : (String × ℝ) × ℝ)
    (hst : st.1 ∈ NOTE_FREQUENCIES) (hl : ∀ p ∈ l, p ∈ NOTE_FREQUENCIES) :
    (l.foldl (fun st p => if |x - p.2| < st.2 then (p, |x - p.2|) else st) st).1 ∈
      NOTE_FREQUENCIES := by
  induction l generalizing st with
  | nil => exact hst
  | cons a t ih =>
      simp only [List.foldl_cons]
      apply ih
      · by_cases hc : |x - a.2| < st.2
        · rw [if_pos hc]; exact hl a (List.mem_cons_self a t)
        · rw [if_neg hc]; exact hst
      · intro p hp; exact hl p (List.mem_cons_of_mem a hp)

theorem scanClosest_mem (x : ℝ) : (scanClosest x).1 ∈ NOTE_FREQUENCIES := by
  rw [scanClosest]
  apply foldl_scan_mem
  · simp [NOTE_FREQUENCIES]
  · intro p hp; exact List.mem_of_mem_drop hp

theorem frequencyToNote_mem (f : ℝ) : (frequencyToNote f).1 ∈ noteNames := by
  rw [frequencyToNote]
  split_ifs with h
  · simp [noteNames, NOTE_FREQUENCIES]
  · exact List.mem_map_of_mem Prod.fst (scanClosest_mem _)

theorem minLag_le_maxLag (buf : AudioBuffer) : minLagOf buf ≤ maxLagOf buf :=
  Nat.div_le_div_left (by norm_num) (by norm_num)

theorem foldl_pick_mem (seg : List ℝ) (L : List ℕ) (st : ℝ × ℕ) :
    (L.foldl (fun st lag => if st.1 < correlationAt seg lag
      then (correlationAt seg lag, lag) else st) st).2 = st.2 ∨
    (L.foldl (fun st lag => if st.1 < correlationAt seg lag
      then (correlationAt seg lag, lag) else st) st).2 ∈ L := by
  induction L generalizing st with
  | nil => exact Or.inl rfl
  | cons a t ih =>
      simp only [List.foldl_cons]
      by_cases hc : st.1 < correlationAt seg a
      · rw [if_pos hc]
        rcases ih (correlationAt seg a, a) with hh | hh
        · exact Or.inr (by rw [hh]; exact List.mem_cons_self a t)
        · exact Or.inr (List.mem_cons_of_mem a hh)
      · rw [if_neg hc]
        rcases ih st with hh | hh
        · exact Or.inl hh
        · exact Or.inr (List.mem_cons_of_mem a hh)

theorem mem_lagsOf (buf : AudioBuffer) (lag : ℕ) (h : lag ∈ lagsOf buf) :
    minLagOf buf ≤ lag ∧ lag ≤ maxLagOf buf := by
  rw [lagsOf] at h
  by_cases hc : minLagOf buf ≤ min (maxLagOf buf) ((segmentOf buf).length / 2)
  · rw [if_pos hc] at h
    rw [List.mem_range'] at h
    obtain ⟨i, hi, rfl⟩ := h
    have h2 := min_le_left (maxLagOf buf) ((segmentOf buf).length / 2)
    omega
  · rw [if_neg hc] at h
    simp at h

theorem bestLag_bounds (buf : AudioBuffer) :
    minLagOf buf ≤ bestLagOf buf ∧ bestLagOf buf ≤ maxLagOf buf := by
  rw [bestLagOf, bestStateOf]
  rcases foldl_pick_mem (segmentOf buf) (lagsOf buf) (-1, minLagOf buf) with hh | hh
  · rw [hh]; exact ⟨le_refl _, minLag_le_maxLag buf⟩
  · exact mem_lagsOf buf _ hh

theorem detectedFreq_ge_60 (buf : AudioBuffer) (h : minLagOf buf ≠ 0) :
    60 ≤ detectedFreqOf buf := by
  obtain ⟨hb1, hb2⟩ := bestLag_bounds buf
  have hsr : (0 : ℝ) < (buf.sampleRate : ℝ) := by exact_mod_cast buf.sampleRate_pos
  have hbl : (0 : ℝ) < (bestLagOf buf : ℝ) := by
    have : 1 ≤ bestLagOf buf := by omega
    exact_mod_cast Nat.lt_of_lt_of_le Nat.zero_lt_one this
  have h1 : (bestLagOf buf : ℝ) ≤ (buf.sampleRate : ℝ) / 60 := by
    calc (bestLagOf buf : ℝ) ≤ (maxLagOf buf : ℝ) := by exact_mod_cast hb2
    _ ≤ (buf.sampleRate : ℝ) / 60 := by rw [maxLagOf]; exact_mod_cast Nat.cast_div_le
  have h3 : (buf.sampleRate : ℝ) / ((buf.sampleRate : ℝ) / 60) = 60 := by
    field_simp
  rw [detectedFreqOf]
  calc (60 : ℝ) = (buf.sampleRate : ℝ) / ((buf.sampleRate : ℝ) / 60) := h3.symm
  _ ≤ (buf.sampleRate : ℝ) / (bestLagOf buf : ℝ) := by gcongr

theorem detectPitch_isSome (buf : AudioBuffer) (h : minLagOf buf ≠ 0) :
    detectPitch buf = some
      { frequency := jsRound1 (detectedFreqOf buf)
        note := (frequencyToNote (detectedFreqOf buf)).1
        key := (frequencyToNote (detectedFreqOf buf)).1 ++ " " ++ keyQualityOf buf } := by
  rw [detectPitch, if_neg h]

theorem detectPitch_fields (buf : AudioBuffer) (r : PitchResult)
    (h : detectPitch buf = some r) :
    minLagOf buf ≠ 0 ∧ r.frequency = jsRound1 (detectedFreqOf buf) ∧
    r.note = (frequencyToNote (detectedFreqOf buf)).1 ∧
    r.key = r.note ++ " " ++ keyQualityOf buf := by
  rw [detectPitch] at h
  by_cases hm : minLagOf buf = 0
  · rw [if_pos hm] at h; exact absurd h (by simp)
  · rw [if_neg hm] at h
    injection h with h2
    cases h2
    exact ⟨hm, rfl, rfl, rfl⟩

theorem detectPitch_note_freq (buf : AudioBuffer) (r : PitchResult)
    (h : detectPitch buf = some r) : r.note ∈ noteNames ∧ 0 < r.frequency := by
  obtain ⟨hm, hf, hn, _⟩ := detectPitch_fields buf r h
  constructor
  · rw [hn]; exact frequencyToNote_mem _
  · rw [hf]
    exact jsRound1_pos _ (by linarith [detectedFreq_ge_60 buf hm])

/-! Facts about the energy classifier and silent buffers. -/

theorem calculateEnergy_nonempty (buf : AudioBuffer) (h : buf.data ≠ []) :
    calculateEnergy buf =
      ⟨some (jsRound2 (min (rmsOf buf * 3) 1)),
       if min (rmsOf buf * 3) 1 < 0.3 then "low"
       else if min (rmsOf buf * 3) 1 < 0.6 then "moderate" else "high"⟩ := by
  rw [calculateEnergy, if_neg (by simpa using h)]

theorem rmsOf_nonneg (buf : AudioBuffer) : 0 ≤ rmsOf buf := Real.sqrt_nonneg _

theorem energy_bounds (buf : AudioBuffer) (h : buf.data ≠ []) :
    ∃ e, (calculateEnergy buf).energy = some e ∧ 0 ≤ e ∧ e ≤ 1 := by
  rw [calculateEnergy_nonempty buf h]
  refine ⟨_, rfl, ?_, ?_⟩
  · rw [jsRound2]
    have h0 : (0 : ℝ) ≤ min (rmsOf buf * 3) 1 :=
      le_min (by nlinarith [rmsOf_nonneg buf]) (by norm_num)
    have hfl : (0 : ℤ) ≤ jsRound (min (rmsOf buf * 3) 1 * 100) := by
      rw [jsRound]
      exact Int.le_floor.mpr (by push_cast; nlinarith)
    have : (0 : ℝ) ≤ (jsRound (min (rmsOf buf * 3) 1 * 100) : ℝ) := by exact_mod_cast hfl
    linarith
  · rw [jsRound2]
    have h1 : min (rmsOf buf * 3) 1 ≤ 1 := min_le_right _ _
    have hfl : jsRound (min (rmsOf buf * 3) 1 * 100) ≤ 100 := by
      rw [jsRound]
      have : (⌊min (rmsOf buf * 3) 1 * 100 + 1 / 2⌋ : ℤ) < 101 :=
        Int.floor_lt.mpr (by push_cast; nlinarith)
      omega
    have : (jsRound (min (rmsOf buf * 3) 1 * 100) : ℝ) ≤ 100 := by exact_mod_cast hfl
    linarith

theorem level_mem (buf : AudioBuffer) :
    (calculateEnergy buf).level ∈ (["low", "moderate", "high"] : List String) := by
  by_cases h : buf.data = []
  · rw [calculateEnergy, if_pos (by simp [h])]
    simp
  · rw [calculateEnergy_nonempty buf h]
    split_ifs <;> simp

theorem calculateEnergy_silent (buf : AudioBuffer) (hsil : ∀ x ∈ buf.data, x = 0)
    (hne : buf.data ≠ []) : calculateEnergy buf = ⟨some 0, "low"⟩ := by
  have hrms : rmsOf buf = 0 := by
    rw [rmsOf, sumSq_of_all_zero _ hsil, zero_div, Real.sqrt_zero]
  have hj : jsRound2 0 = 0 := by
    rw [jsRound2, jsRound]
    norm_num [Int.floor_eq_iff]
  rw [calculateEnergy_nonempty buf hne, hrms]
  have h0 : min ((0 : ℝ) * 3) 1 = 0 := by norm_num
  rw [h0, hj, if_pos (by norm_num : (0 : ℝ) < 0.3)]



theorem envelope_silent (data : List ℝ) (hop : ℕ) (hsil : ∀ x ∈ data, x = 0) :
    ∀ v ∈ envelopeOf data hop, v = 0 := by
  intro v hv
  rw [envelopeOf] at hv
  rcases List.mem_map.mp hv with ⟨k, _, rfl⟩
  rw [sumSq_of_all_zero _ (fun x hx => hsil x (mem_of_mem_slice hx)), zero_div,
    Real.sqrt_zero]

theorem normalized_silent (env : List ℝ) (h : ∀ v ∈ env, v = 0) :
    ∀ v ∈ normalizedOf env, v = 0 := by
  intro v hv
  rcases List.mem_map.mp hv with ⟨w, hw, rfl⟩
  rw [h w hw, zero_div]

theorem onsetStep_silent (env : List ℝ) (hop sr : ℕ) (acc : List ℝ) (i : ℕ)
    (h : ∀ v ∈ env, v = 0) : onsetStep env hop sr acc i = acc := by
  rw [onsetStep]
  rw [if_neg]
  intro hcond
  have hv : env.getD i 0 = 0 := getD_of_all_zero env i h
  have havg : ((env.drop (i - 8)).take 8).sum = 0 :=
    List.sum_eq_zero (fun x hx => h x (mem_of_mem_slice hx))
  rw [hv, havg] at hcond
  have := hcond.1
  norm_num at this

theorem onsetsOf_silent (env : List ℝ) (hop sr : ℕ) (h : ∀ v ∈ env, v = 0) :
    onsetsOf env hop sr = [] := by
  rw [onsetsOf]
  generalize List.range' 8 (env.length - 1 - 8) = L
  induction L with
  | nil => rfl
  | cons a t ih =>
      rw [List.foldl_cons, onsetStep_silent env hop sr [] a h]
      exact ih

theorem detectTempo_silent (buf : AudioBuffer) (hsil : ∀ x ∈ buf.data, x = 0)
    (r : TempoResult) (h : detectTempo buf = some r) : r.bpm = 120 ∧ r.onsets = [] := by
  obtain ⟨honsets, hcase⟩ := detectTempo_some buf r h
  have hz : r.onsets = [] := by
    rw [honsets]
    exact onsetsOf_silent _ _ _
      (normalized_silent _ (envelope_silent _ _ hsil))
  rcases hcase with ⟨_, hbpm⟩ | ⟨hlen, _⟩
  · exact ⟨hbpm, hz⟩
  · rw [hz] at hlen; simp at hlen

theorem zeroCrossings_silent (l : List ℝ) (h : ∀ x ∈ l, x = 0) :
    zeroCrossings l = 0 := by
  rw [zeroCrossings]
  apply List.sum_eq_zero
  intro y hy
  rcases List.mem_map.mp hy with ⟨i, _, rfl⟩
  rw [getD_of_all_zero l i h, getD_of_all_zero l (i - 1) h]
  norm_num

theorem segmentPitches_silent (buf : AudioBuffer) (hsil : ∀ x ∈ buf.data, x = 0) :
    segmentPitchesOf buf = [0, 0, 0, 0, 0, 0] := by
  rw [segmentPitchesOf]
  have : ∀ seg ∈ List.range 6,
      ((zeroCrossings ((buf.data.drop (seg * (buf.data.length / 6))).take
        (buf.data.length / 6)) : ℝ) * (buf.sampleRate : ℝ)) /
        (2 * ((((buf.data.drop (seg * (buf.data.length / 6))).take
          (buf.data.length / 6)).length : ℝ))) = 0 := by
    intro seg _
    rw [zeroCrossings_silent _ (fun x hx => hsil x (mem_of_mem_slice hx))]
    norm_num
  rw [List.map_congr_left this]
  rfl

theorem detectContour_silent (buf : AudioBuffer) (hsil : ∀ x ∈ buf.data, x = 0) :
    detectContour buf = "oscillating" := by
  rw [detectContour]
  by_cases h6 : buf.data.length / 6 = 0
  · rw [if_pos h6]
  · rw [if_neg h6]
    rw [segmentPitches_silent buf hsil]
    norm_num [List.range_succ, List.range'_succ, List.getD]

/-! Facts about the rhythm and contour classifiers and the silent pitch scan. -/

theorem classifyRhythm_short (onsets : List ℝ) (h : onsets.length < 3) :
    classifyRhythm onsets = "straight" := by
  rw [classifyRhythm, if_pos h]

theorem classifyRhythm_mem (onsets : List ℝ) :
    classifyRhythm onsets ∈ (["straight", "swing", "syncopated"] : List String) := by
  rw [classifyRhythm]
  split
  · simp
  · dsimp only
    repeat' split
    all_goals simp

theorem detectContour_mem (buf : AudioBuffer) :
    detectContour buf ∈ (["ascending", "descending", "oscillating"] : List String) := by
  rw [detectContour]
  split
  · simp
  · dsimp only
    repeat' split
    all_goals simp

theorem segment_silent (buf : AudioBuffer) (hsil : ∀ x ∈ buf.data, x = 0) :
    ∀ x ∈ segmentOf buf, x = 0 := by
  intro x hx
  rw [segmentOf] at hx
  exact hsil x (mem_of_mem_slice hx)

theorem correlationAt_silent (seg : List ℝ) (h : ∀ x ∈ seg, x = 0) (lag : ℕ) :
    correlationAt seg lag = 0 := by
  rw [correlationAt]
  have h1 : ((List.range (min (seg.length - lag) 4096)).map
      (fun i => seg.getD i 0 * seg.getD (i + lag) 0)).sum = 0 := by
    apply List.sum_eq_zero
    intro y hy
    rcases List.mem_map.mp hy with ⟨i, _, rfl⟩
    rw [getD_of_all_zero seg _ h, zero_mul]
  have h2 : ((List.range (min (seg.length - lag) 4096)).map
      (fun i => seg.getD i 0 * seg.getD i 0)).sum = 0 := by
    apply List.sum_eq_zero
    intro y hy
    rcases List.mem_map.mp hy with ⟨i, _, rfl⟩
    rw [getD_of_all_zero seg _ h, zero_mul]
  have h3 : ((List.range (min (seg.length - lag) 4096)).map
      (fun i => seg.getD (i + lag) 0 * seg.getD (i + lag) 0)).sum = 0 := by
    apply List.sum_eq_zero
    intro y hy
    rcases List.mem_map.mp hy with ⟨i, _, rfl⟩
    rw [getD_of_all_zero seg _ h, zero_mul]
  rw [h1, h2, h3]
  norm_num

theorem foldl_zero_corr (seg : List ℝ) (L : List ℕ)
    (h : ∀ lag ∈ L, correlationAt seg lag = 0) (st : ℝ × ℕ) (hst : st.1 = 0) :
    L.foldl (fun st lag => if st.1 < correlationAt seg lag
      then (correlationAt seg lag, lag) else st) st = st := by
  induction L with
  | nil => rfl
  | cons a t ih =>
      rw [List.foldl_cons]
      rw [if_neg (by rw [h a (List.mem_cons_self a t), hst]; norm_num)]
      exact ih (fun lag hl => h lag (List.mem_cons_of_mem a hl))

theorem bestLag_silent (buf : AudioBuffer)
    (h : ∀ lag ∈ lagsOf buf, correlationAt (segmentOf buf) lag = 0) :
    bestLagOf buf = minLagOf buf := by
  rw [bestLagOf, bestStateOf]
  by_cases hc : minLagOf buf ≤ min (maxLagOf buf) ((segmentOf buf).length / 2)
  · have hl : lagsOf buf = minLagOf buf ::
        List.range' (minLagOf buf + 1)
          (min (maxLagOf buf) ((segmentOf buf).length / 2) - minLagOf buf) := by
      rw [lagsOf, if_pos hc]
      rw [List.range'_succ]
    rw [hl] at h ⊢
    rw [List.foldl_cons]
    have hm : correlationAt (segmentOf buf) (minLagOf buf) = 0 :=
      h (minLagOf buf) (List.mem_cons_self _ _)
    rw [if_pos (by rw [hm]; norm_num)]
    rw [hm]
    rw [foldl_zero_corr (segmentOf buf) _
      (fun lag hl2 => h lag (List.mem_cons_of_mem _ hl2)) _ rfl]
  · have hl : lagsOf buf = [] := by rw [lagsOf, if_neg hc]
    rw [hl]
    rfl

/-! Facts about the energy envelope and its normalization. -/

theorem envelope_length (data : List ℝ) (hop : ℕ) :
    (envelopeOf data hop).length = numFrames data.length hop := by
  rw [envelopeOf]
  simp

theorem numFrames_iff (len hop k : ℕ) (hhop : 1 ≤ hop) :
    k < numFrames len hop ↔ ((k * hop : ℤ) < (len : ℤ) - (hop : ℤ)) := by
  rcases Nat.eq_zero_or_pos len with rfl | hlen
  · constructor
    · intro hk
      exact absurd hk (by simp [numFrames])
    · intro hk
      exfalso
      have hkk : (0 : ℤ) ≤ (k : ℤ) * (hop : ℤ) := by positivity
      omega
  · rw [numFrames]
    have h1 : k < (len - 1) / hop ↔ k + 1 ≤ (len - 1) / hop := by omega
    rw [h1, Nat.le_div_iff_mul_le hhop]
    have hmul : (k + 1) * hop = k * hop + hop := by ring
    rw [hmul]
    zify [hlen]
    omega

theorem envelope_getD (data : List ℝ) (hop k : ℕ) (hk : k < numFrames data.length hop) :
    (envelopeOf data hop).getD k 0 =
      Real.sqrt (sumSq ((data.drop (k * hop)).take hop) / (hop : ℝ)) := by
  have hk2 : k < (envelopeOf data hop).length := by rw [envelope_length]; exact hk
  rw [List.getD_eq_getElem _ 0 hk2]
  simp [envelopeOf]

theorem maxEnv_pos (env : List ℝ) : 0 < maxEnvOf env :=
  lt_of_lt_of_le (by norm_num) (le_foldl_max env 0.0001)

theorem normalized_max_one (env : List ℝ) (h : ∃ v ∈ env, (0.0001 : ℝ) ≤ v) :
    (1 : ℝ) ∈ normalizedOf env ∧ ∀ w ∈ normalizedOf env, w ≤ 1 := by
  obtain ⟨v, hv, hv4⟩ := h
  have hpos : 0 < maxEnvOf env := maxEnv_pos env
  have hmem : maxEnvOf env ∈ env := by
    rcases foldl_max_cases env 0.0001 with hc | hc
    · rw [maxEnvOf, hc]
      have hle : v ≤ (0.0001 : ℝ) := by
        have := mem_le_foldl_max env 0.0001 v hv
        rw [hc] at this
        exact this
      have hveq : v = (0.0001 : ℝ) := le_antisymm hle hv4
      rw [← hveq]
      exact hv
    · exact hc
  constructor
  · rw [normalizedOf]
    apply List.mem_map.mpr
    exact ⟨maxEnvOf env, hmem, by field_simp⟩
  · intro w hw
    rcases List.mem_map.mp hw with ⟨u, hu, rfl⟩
    rw [div_le_one hpos]
    exact mem_le_foldl_max env 0.0001 u hu

/-! Concrete evaluations used by counterexamples and witnesses. -/

theorem scanClosest_500 : scanClosest 500 = (("B", 493.88), 500 - 493.88) := by
  simp only [scanClosest, NOTE_FREQUENCIES, List.drop, List.foldl]
  norm_num [abs_of_nonneg]

theorem frequencyToNote_1000 : frequencyToNote 1000 = ("B", 5) := by
  have hfold : normalizeFreq 1000 = (500, 5) := by
    rw [normalizeFreq, foldUp]
    norm_num
    rw [foldDown]
    norm_num
    rw [foldDown]
    norm_num
  rw [frequencyToNote]
  norm_num [hfold, scanClosest_500]

theorem detectTempo_bufZero : detectTempo bufZero = some ⟨120, []⟩ := by
  simp [detectTempo, bufZero, hopSizeOf, envelopeOf, numFrames, normalizedOf, onsetsOf]

theorem detectTempo_bufEmpty : detectTempo bufEmpty = some ⟨120, []⟩ := by
  simp [detectTempo, bufEmpty, hopSizeOf, envelopeOf, numFrames, normalizedOf, onsetsOf]

theorem calculateEnergy_bufEmpty : calculateEnergy bufEmpty = ⟨none, "high"⟩ := by
  rw [calculateEnergy, if_pos (by simp [bufEmpty])]

theorem calculateEnergy_bufZero : calculateEnergy bufZero = ⟨some 0, "low"⟩ :=
  calculateEnergy_silent bufZero (by simp [bufZero]) (by simp [bufZero])

theorem detectPitch_bufZero : detectPitch bufZero = some ⟨1000, "B", "B minor"⟩ := by
  have hbest : bestLagOf bufZero = 1 := by
    simp [bestLagOf, bestStateOf, lagsOf, segmentOf, minLagOf, maxLagOf, bufZero]
  have hfreq : detectedFreqOf bufZero = 1000 := by
    rw [detectedFreqOf, hbest]
    show ((bufZero.sampleRate : ℕ) : ℝ) / ((1 : ℕ) : ℝ) = 1000
    norm_num [bufZero]
  have hq : keyQualityOf bufZero = "minor" := by
    rw [keyQualityOf, calculateEnergy_bufZero]
    norm_num
  rw [detectPitch]
  rw [if_neg (by simp [minLagOf, bufZero])]
  rw [hfreq, frequencyToNote_1000, hq]
  simp [jsRound1]
  rw [jsRound_eq (1000 * 10) 10000 (by norm_num) (by norm_num)]
  norm_num

theorem detectPitch_bufEmpty : detectPitch bufEmpty = some ⟨1000, "B", "B minor"⟩ := by
  have hbest : bestLagOf bufEmpty = 1 := by
    simp [bestLagOf, bestStateOf, lagsOf, segmentOf, minLagOf, maxLagOf, bufEmpty]
  have hfreq : detectedFreqOf bufEmpty = 1000 := by
    rw [detectedFreqOf, hbest]
    show ((bufEmpty.sampleRate : ℕ) : ℝ) / ((1 : ℕ) : ℝ) = 1000
    norm_num [bufEmpty]
  have hq : keyQualityOf bufEmpty = "minor" := by
    rw [keyQualityOf, calculateEnergy_bufEmpty]
  rw [detectPitch]
  rw [if_neg (by simp [minLagOf, bufEmpty])]
  rw [hfreq, frequencyToNote_1000, hq]
  simp [jsRound1]
  rw [jsRound_eq (1000 * 10) 10000 (by norm_num) (by norm_num)]
  norm_num

theorem analyze_bufZero :
    analyzeAudioBuffer bufZero =
      some { tempo := 120, key := "B minor", note := "B", frequency := 1000,
             energy := some 0, energyLevel := "low", rhythm := "straight",
             contour := "oscillating" } := by
  rw [analyzeAudioBuffer, detectTempo_bufZero, detectPitch_bufZero]
  rw [calculateEnergy_bufZero]
  have hr : classifyRhythm ([] : List ℝ) = "straight" := classifyRhythm_short _ (by simp)
  have hcont : detectContour bufZero = "oscillating" :=
    detectContour_silent bufZero (by simp [bufZero])
  simp [hr, hcont]

theorem analyze_bufEmpty :
    analyzeAudioBuffer bufEmpty =
      some { tempo := 120, key := "B minor", note := "B", frequency := 1000,
             energy := none, energyLevel := "high", rhythm := "straight",
             contour := "oscillating" } := by
  rw [analyzeAudioBuffer, detectTempo_bufEmpty, detectPitch_bufEmpty]
  rw [calculateEnergy_bufEmpty]
  have hr : classifyRhythm ([] : List ℝ) = "straight" := classifyRhythm_short _ (by simp)
  have hcont : detectContour bufEmpty = "oscillating" := by
    rw [detectContour, if_pos (by simp [bufEmpty])]
  simp [hr, hcont]



theorem bestLag_bufFold : bestLagOf bufFold = 20 := by
  simp [bestLagOf, bestStateOf, lagsOf, segmentOf, minLagOf, maxLagOf, bufFold]

theorem detectedFreq_bufFold : detectedFreqOf bufFold = 1046.5 := by
  rw [detectedFreqOf, bestLag_bufFold]
  show ((bufFold.sampleRate : ℕ) : ℝ) / ((20 : ℕ) : ℝ) = 1046.5
  norm_num [bufFold]

theorem normalizeFreq_10465 : (normalizeFreq 1046.5).1 = 523.25 := by
  rw [normalizeFreq, foldUp]
  norm_num
  rw [foldDown]
  norm_num
  rw [foldDown]
  norm_num

theorem sqrt_quarter : Real.sqrt 0.25 = 0.5 := by
  rw [show (0.25 : ℝ) = 0.5 ^ 2 by norm_num]
  exact Real.sqrt_sq (by norm_num)

theorem sqrt_four : Real.sqrt 4 = 2 := by
  rw [show (4 : ℝ) = 2 ^ 2 by norm_num]
  exact Real.sqrt_sq (by norm_num)

theorem envelope_half : envelopeOf [(0.5 : ℝ), 0.5] 1 = [0.5] := by
  rw [envelopeOf]
  norm_num [numFrames, List.range_succ, sumSq, sqrt_quarter, sqrt_four]

theorem envelope_tail : envelopeOf [(0 : ℝ), 0.5] 1 = [0] := by
  rw [envelopeOf]
  norm_num [numFrames, List.range_succ, sumSq]

theorem normalized_tail : normalizedOf [(0 : ℝ)] = [0] := by
  simp [normalizedOf]

theorem envelope_witness : envelopeOf [(0.5 : ℝ), 0] 1 = [0.5] := by
  rw [envelopeOf]
  norm_num [numFrames, List.range_succ, sumSq, sqrt_quarter, sqrt_four]

theorem jsRound_2205 : jsRound ((22050 : ℝ) * 0.01) = 221 := by
  rw [jsRound_eq ((22050 : ℝ) * 0.01) 221 (by norm_num) (by norm_num)]

theorem rms_bufEnergy : rmsOf bufEnergy = 0.099 := by
  rw [rmsOf]
  have h1 : sumSq bufEnergy.data = 0.099 * 0.099 := by
    simp [sumSq, bufEnergy]
  rw [h1]
  have h2 : (bufEnergy.data.length : ℝ) = 1 := by simp [bufEnergy]
  rw [h2, div_one]
  exact Real.sqrt_mul_self (by norm_num)

theorem calculateEnergy_bufEnergy : calculateEnergy bufEnergy = ⟨some 0.3, "low"⟩ := by
  rw [calculateEnergy_nonempty bufEnergy (by simp [bufEnergy]), rms_bufEnergy]
  have hmin : min ((0.099 : ℝ) * 3) 1 = 0.297 := by
    rw [min_eq_left (by norm_num)]
    norm_num
  rw [hmin]
  have hj : jsRound2 0.297 = 0.3 := by
    rw [jsRound2, jsRound_eq ((0.297 : ℝ) * 100) 30 (by norm_num) (by norm_num)]
    norm_num
  rw [hj, if_pos (by norm_num : (0.297 : ℝ) < 0.3)]

theorem rms_bufSine : rmsOf bufSine = Real.sqrt 0.02 := by
  rw [rmsOf]
  have h1 : sumSq bufSine.data = 0.08 := by
    simp [sumSq, bufSine]
    norm_num
  have h2 : (bufSine.data.length : ℝ) = 4 := by simp [bufSine]
  rw [h1, h2]
  norm_num

theorem sqrt02_lower : (41.5 : ℝ) / 300 ≤ Real.sqrt 0.02 := by
  rw [Real.le_sqrt (by norm_num) (by norm_num)]
  norm_num

theorem sqrt02_upper : Real.sqrt 0.02 < (42.5 : ℝ) / 300 := by
  rw [Real.sqrt_lt' (by norm_num)]
  norm_num

theorem calculateEnergy_bufSine : calculateEnergy bufSine = ⟨some 0.42, "moderate"⟩ := by
  rw [calculateEnergy_nonempty bufSine (by simp [bufSine]), rms_bufSine]
  have hlo := sqrt02_lower
  have hhi := sqrt02_upper
  have hmin : min (Real.sqrt 0.02 * 3) 1 = Real.sqrt 0.02 * 3 :=
    min_eq_left (by nlinarith)
  rw [hmin]
  have hj : jsRound2 (Real.sqrt 0.02 * 3) = 0.42 := by
    rw [jsRound2, jsRound_eq (Real.sqrt 0.02 * 3 * 100) 42 (by nlinarith) (by nlinarith)]
    norm_num
  rw [hj]
  rw [if_neg (by nlinarith : ¬ Real.sqrt 0.02 * 3 < 0.3)]
  rw [if_pos (by nlinarith : Real.sqrt 0.02 * 3 < 0.6)]

/-! Claim theorems, counterexamples and witnesses. -/

/-- C2: for every buffer on which detectTempo returns, the BPM is an integer
in [60, 200]; with fewer than 2 onsets it is the default 120, and otherwise
it is 60000 over the median inter-onset interval (index floor(n/2) of the
sorted intervals), halved while above 200, doubled while below 60, and
rounded to the nearest integer. -/
theorem C2_bpm_range (buf : AudioBuffer) (r : TempoResult)
    (h : detectTempo buf = some r) :
    (60 ≤ r.bpm ∧ r.bpm ≤ 200) ∧
    (r.onsets.length < 2 → r.bpm = 120) ∧
    (2 ≤ r.onsets.length →
      r.bpm = jsRound (doubleBpm (halveBpm
        (60000 / medianIntervalOf (intervalsOf r.onsets))))) := by
  obtain ⟨_, hcase⟩ := detectTempo_some buf r h
  refine ⟨detectTempo_bpm_range buf r h, ?_, ?_⟩
  · intro hl
    rcases hcase with ⟨_, hb⟩ | ⟨h2, _⟩
    · exact hb
    · omega
  · intro hl
    rcases hcase with ⟨h2, _⟩ | ⟨_, hb⟩
    · omega
    · exact hb

/-- Witness for C2 at a concrete one-sample buffer. -/
theorem C2_witness :
    60 ≤ (⟨120, ([] : List ℝ)⟩ : TempoResult).bpm ∧
    (⟨120, ([] : List ℝ)⟩ : TempoResult).bpm ≤ 200 :=
  (C2_bpm_range bufZero ⟨120, []⟩ detectTempo_bufZero).1

/-- C3: for any envelope, the onset timestamps are strictly increasing with
consecutive gaps of at least 100 ms, and the same holds for the onset list of
every successful detectTempo run. -/
theorem C3_onsets_monotone :
    (∀ (env : List ℝ) (hop sr : ℕ),
      List.Chain' (fun a b => a < b) (onsetsOf env hop sr) ∧
      List.Chain' (fun a b => (100 : ℝ) ≤ b - a) (onsetsOf env hop sr)) ∧
    (∀ (buf : AudioBuffer) (r : TempoResult), detectTempo buf = some r →
      List.Chain' (fun a b => a < b) r.onsets ∧
      List.Chain' (fun a b => (100 : ℝ) ≤ b - a) r.onsets) := by
  have hmain : ∀ (env : List ℝ) (hop sr : ℕ),
      List.Chain' (fun a b => a < b) (onsetsOf env hop sr) ∧
      List.Chain' (fun a b => (100 : ℝ) ≤ b - a) (onsetsOf env hop sr) := by
    intro env hop sr
    have hg : List.Chain' (fun a b => a + 100 < b) (onsetsOf env hop sr) :=
      onsetsOf_gap env hop sr
    exact ⟨hg.imp (fun a b hab => by linarith),
           hg.imp (fun a b hab => by linarith)⟩
  refine ⟨hmain, fun buf r h => ?_⟩
  obtain ⟨ho, _⟩ := detectTempo_some buf r h
  rw [ho]
  exact hmain _ _ _

/-- Witness for C3 at a concrete one-sample buffer. -/
theorem C3_witness :
    List.Chain' (fun a b => a < b) (TempoResult.onsets ⟨120, ([] : List ℝ)⟩) ∧
    List.Chain' (fun a b => (100 : ℝ) ≤ b - a) (TempoResult.onsets ⟨120, ([] : List ℝ)⟩) :=
  C3_onsets_monotone.2 bufZero ⟨120, []⟩ detectTempo_bufZero

/-- C9: the minimum-gap test is strict; a candidate exactly 100 ms after the
previously accepted onset is discarded, and every pair of consecutive
accepted onsets differs by strictly more than 100 ms. -/
theorem C9_min_gap_strict :
    (∀ (acc : List ℝ) (last : ℝ), acc.getLast? = some last →
      pushOnset acc (last + 100) = acc) ∧
    (∀ (env : List ℝ) (hop sr : ℕ),
      List.Chain' (fun a b => 100 < b - a) (onsetsOf env hop sr)) := by
  constructor
  · intro acc last hl
    unfold pushOnset
    rw [hl]
    simp only
    rw [if_neg (by intro hcon; linarith)]
  · intro env hop sr
    exact List.Chain'.imp (fun a b hab => by linarith) (onsetsOf_gap env hop sr)

/-- Witness for C9: a candidate exactly 100 ms after an accepted onset at 0. -/
theorem C9_witness : pushOnset [(0 : ℝ)] ((0 : ℝ) + 100) = [0] :=
  C9_min_gap_strict.1 [0] 0 (by simp)



/-- C4 counterexample: the empty buffer is all-zero (vacuously silent), yet
calculateEnergy yields a NaN energy (none) and level "high", not energy 0
with level "low": the 0/0 of the unguarded RMS division poisons the result. -/
theorem C4_counterexample :
    bufEmpty.data = [] ∧ calculateEnergy bufEmpty = ⟨none, "high"⟩ ∧
    (none : Option ℝ) ≠ some 0 ∧ "high" ≠ "low" :=
  ⟨rfl, calculateEnergy_bufEmpty, by simp, by simp⟩

/-- C4 as amended: for every nonempty silent buffer, calculateEnergy yields
energy 0 with level "low", detectTempo yields bpm 120 (no onsets detected)
whenever it returns, and detectContour yields "oscillating". -/
theorem C4_amended (buf : AudioBuffer) (hsil : ∀ x ∈ buf.data, x = 0)
    (hne : buf.data ≠ []) :
    calculateEnergy buf = ⟨some 0, "low"⟩ ∧
    (∀ r, detectTempo buf = some r → r.bpm = 120 ∧ r.onsets = []) ∧
    detectContour buf = "oscillating" :=
  ⟨calculateEnergy_silent buf hsil hne,
   fun r hr => detectTempo_silent buf hsil r hr,
   detectContour_silent buf hsil⟩

/-- Witness for C4 at a concrete six-sample silent buffer. -/
theorem C4_witness :
    calculateEnergy bufSilent6 = ⟨some 0, "low"⟩ ∧
    detectContour bufSilent6 = "oscillating" := by
  have h := C4_amended bufSilent6 (by simp [bufSilent6]) (by simp [bufSilent6])
  exact ⟨h.1, h.2.2⟩

/-- C5 counterexample: an eight-sample silent buffer at 20930 Hz detects
20930 / 20 = 1046.5 Hz; folding lands on exactly 523.25 Hz, which is outside
the claimed reference octave [261.63, 523.25) — the octave the code folds
into is [261.63, 523.26). -/
theorem C5_counterexample :
    detectedFreqOf bufFold = 1046.5 ∧
    (normalizeFreq (detectedFreqOf bufFold)).1 = 523.25 ∧
    ¬ ((normalizeFreq (detectedFreqOf bufFold)).1 < 523.25) := by
  refine ⟨detectedFreq_bufFold, ?_, ?_⟩
  · rw [detectedFreq_bufFold]
    exact normalizeFreq_10465
  · rw [detectedFreq_bufFold, normalizeFreq_10465]
    norm_num

/-- C5 as amended: whenever detectPitch returns, the note name is one of the
12 chromatic names and the reported frequency is positive (silent or not);
the frequency folding lands in the octave [261.63, 2 * 261.63) = [261.63,
523.26) for every positive frequency. -/
theorem C5_amended :
    (∀ (buf : AudioBuffer) (r : PitchResult), detectPitch buf = some r →
      r.note ∈ noteNames ∧ 0 < r.frequency) ∧
    (∀ f : ℝ, 0 < f →
      261.63 ≤ (normalizeFreq f).1 ∧ (normalizeFreq f).1 < 261.63 * 2) :=
  ⟨detectPitch_note_freq, fun f hf => normalizeFreq_range f hf⟩

/-- Witness for C5 at a concrete one-sample buffer and at frequency 300. -/
theorem C5_witness :
    ((⟨1000, "B", "B minor"⟩ : PitchResult).note ∈ noteNames ∧
      (0 : ℝ) < (⟨1000, "B", "B minor"⟩ : PitchResult).frequency) ∧
    (261.63 ≤ (normalizeFreq 300).1 ∧ (normalizeFreq 300).1 < 261.63 * 2) :=
  ⟨C5_amended.1 bufZero ⟨1000, "B", "B minor"⟩ detectPitch_bufZero,
   C5_amended.2 300 (by norm_num)⟩

/-- C6 counterexample: on the one-sample buffer [0.099] the returned energy
is the rounded 0.3, but the level is "low" because the source buckets the
unrounded 0.297; bucketing the rounded value as the claim states would give
"moderate". -/
theorem C6_counterexample :
    calculateEnergy bufEnergy = ⟨some 0.3, "low"⟩ ∧
    (if (0.3 : ℝ) < 0.3 then "low"
     else if (0.3 : ℝ) < 0.6 then "moderate" else "high") = "moderate" ∧
    "low" ≠ "moderate" := by
  refine ⟨calculateEnergy_bufEnergy, ?_, by simp⟩
  rw [if_neg (by norm_num), if_pos (by norm_num)]

/-- C6 as amended: the returned energy is min(3 * RMS, 1) rounded to two
decimals, but the level buckets the unrounded min(3 * RMS, 1); the
0.2-amplitude sine scenario still yields energy 0.42 with level "moderate". -/
theorem C6_amended :
    (∀ buf : AudioBuffer, buf.data ≠ [] →
      (calculateEnergy buf).energy = some (jsRound2 (min (3 * rmsOf buf) 1)) ∧
      (calculateEnergy buf).level =
        (if min (3 * rmsOf buf) 1 < 0.3 then "low"
         else if min (3 * rmsOf buf) 1 < 0.6 then "moderate" else "high")) ∧
    calculateEnergy bufSine = ⟨some 0.42, "moderate"⟩ := by
  constructor
  · intro buf hne
    rw [calculateEnergy_nonempty buf hne]
    rw [show (3 : ℝ) * rmsOf buf = rmsOf buf * 3 by ring]
    exact ⟨rfl, rfl⟩
  · exact calculateEnergy_bufSine

/-- Witness for C6 at the concrete buffer [0.099]. -/
theorem C6_witness :
    (calculateEnergy bufEnergy).energy = some (jsRound2 (min (3 * rmsOf bufEnergy) 1)) :=
  (C6_amended.1 bufEnergy (by simp [bufEnergy])).1

/-- C7 counterexample, three parts.  First: at 100 Hz the hop is 1 sample and
the two-sample buffer [0.5, 0.5] consists of exactly 2 complete hops, yet the
envelope has only 1 entry, because the loop guard i < len - hop also discards
the final complete hop when hop divides len.  Second: the hop size is
floor(sampleRate * 0.01), not round: at 22050 Hz the code uses 220 while
round gives 221.  Third: the buffer [0, 0.5] is not silent, but its only
envelope entry covers the discarded half, so the normalized envelope is [0]
and its maximum is 0, not 1.0. -/
theorem C7_counterexample :
    (hopSizeOf 100 = 1 ∧ envelopeOf [(0.5 : ℝ), 0.5] (hopSizeOf 100) = [0.5] ∧
      ([(0.5 : ℝ), 0.5]).length = 2 * hopSizeOf 100 ∧ (1 : ℕ) ≠ 2) ∧
    (hopSizeOf 22050 = 220 ∧ jsRound ((22050 : ℝ) * 0.01) = 221 ∧ (220 : ℕ) ≠ 221) ∧
    (normalizedOf (envelopeOf [(0 : ℝ), 0.5] (hopSizeOf 100)) = [0] ∧
      (0.5 : ℝ) ≠ 0 ∧ (0 : ℝ) ≠ 1) := by
  have hhop100 : hopSizeOf 100 = 1 := by decide
  have hhop22050 : hopSizeOf 22050 = 220 := by decide
  have henv : envelopeOf [(0.5 : ℝ), 0.5] (hopSizeOf 100) = [0.5] := by
    rw [hhop100]
    exact envelope_half
  have hnorm : normalizedOf (envelopeOf [(0 : ℝ), 0.5] (hopSizeOf 100)) = [0] := by
    rw [hhop100, envelope_tail]
    exact normalized_tail
  exact ⟨⟨hhop100, henv, by simp [hhop100], by decide⟩,
         ⟨hhop22050, jsRound_2205, by decide⟩,
         ⟨hnorm, by norm_num, by norm_num⟩⟩

/-- C7 as amended: for a positive hop the envelope has one RMS entry per loop
index k with k * hop < len - hop (so the trailing partial hop is discarded,
and when hop divides len exactly the last complete hop as well); each entry
is the RMS of its hop; the normalized envelope divides by the maximum floored
at 0.0001; and whenever some envelope value reaches 0.0001 the normalized
envelope attains the maximum 1.0. -/
theorem C7_amended (data : List ℝ) (hop : ℕ) (hhop : 1 ≤ hop) :
    ((envelopeOf data hop).length = numFrames data.length hop) ∧
    (∀ k : ℕ, k < numFrames data.length hop ↔
      ((k * hop : ℤ) < (data.length : ℤ) - (hop : ℤ))) ∧
    (∀ k : ℕ, k < numFrames data.length hop →
      (envelopeOf data hop).getD k 0 =
        Real.sqrt (sumSq ((data.drop (k * hop)).take hop) / (hop : ℝ))) ∧
    normalizedOf (envelopeOf data hop) =
      (envelopeOf data hop).map (fun v => v / maxEnvOf (envelopeOf data hop)) ∧
    ((∃ v ∈ envelopeOf data hop, (0.0001 : ℝ) ≤ v) →
      (1 : ℝ) ∈ normalizedOf (envelopeOf data hop) ∧
      ∀ w ∈ normalizedOf (envelopeOf data hop), w ≤ 1) :=
  ⟨envelope_length data hop,
   fun k => numFrames_iff data.length hop k hhop,
   fun k hk => envelope_getD data hop k hk,
   rfl,
   fun h => normalized_max_one _ h⟩

/-- Witness for C7 at the concrete buffer [0.5, 0] with hop 1. -/
theorem C7_witness : (1 : ℝ) ∈ normalizedOf (envelopeOf [(0.5 : ℝ), 0] 1) := by
  have h := (C7_amended [(0.5 : ℝ), 0] 1 (by norm_num)).2.2.2.2
  refine (h ⟨0.5, ?_, by norm_num⟩).1
  rw [envelope_witness]
  simp

/-- C8: whenever analyzeAudioBuffer returns, the key string is the detected
note followed by a space and a quality word; the quality is "major" exactly
when the rounded energy value, the same value reported in the energy field,
exceeds 0.4, and "minor" otherwise. -/
theorem C8_key_quality (buf : AudioBuffer) (r : AnalysisResult)
    (h : analyzeAudioBuffer buf = some r) :
    r.energy = (calculateEnergy buf).energy ∧
    ((∃ e, r.energy = some e ∧ (0.4 : ℝ) < e) → r.key = r.note ++ " major") ∧
    ((∀ e, r.energy = some e → e ≤ 0.4) → r.key = r.note ++ " minor") := by
  rw [analyzeAudioBuffer] at h
  cases ht : detectTempo buf with
  | none => rw [ht] at h; simp at h
  | some t =>
    cases hp : detectPitch buf with
    | none => rw [ht, hp] at h; simp at h
    | some p =>
      rw [ht, hp] at h
      simp only at h
      injection h with h2
      cases h2
      obtain ⟨hm, hf, hn, hk⟩ := detectPitch_fields buf p hp
      refine ⟨rfl, ?_, ?_⟩
      · rintro ⟨e, he, he4⟩
        have hq : keyQualityOf buf = "major" := by
          rw [keyQualityOf]
          rw [show (calculateEnergy buf).energy = some e from he]
          simp only
          rw [if_pos he4]
        show p.key = p.note ++ " major"
        rw [hk, hq, String.append_assoc]
        rfl
      · intro hle
        have hq : keyQualityOf buf = "minor" := by
          rw [keyQualityOf]
          cases he : (calculateEnergy buf).energy with
          | none => simp only
          | some e =>
            simp only
            rw [if_neg (by push_neg; exact hle e he)]
        show p.key = p.note ++ " minor"
        rw [hk, hq, String.append_assoc]
        rfl

/-- Witness for C8 at a concrete one-sample buffer. -/
theorem C8_witness :
    AnalysisResult.energy
      { tempo := 120, key := "B minor", note := "B", frequency := 1000,
        energy := some 0, energyLevel := "low", rhythm := "straight",
        contour := "oscillating" } = (calculateEnergy bufZero).energy :=
  (C8_key_quality bufZero _ analyze_bufZero).1



/-- C10: on every nonempty all-zero buffer with sample rate at least 1000 Hz,
every candidate correlation is 0 (the zero-denominator guard leaves the zero
sum unchanged), the scan selects the smallest lag floor(sampleRate / 1000),
and detectPitch reports the positive frequency sampleRate over that lag
(at least 1000 Hz, rounded to one decimal) with a well-defined note name and
a "<note> minor" key. -/
theorem C10_silent_pitch (buf : AudioBuffer) (hsil : ∀ x ∈ buf.data, x = 0)
    (hne : buf.data ≠ []) (hsr : 1000 ≤ buf.sampleRate) :
    (∀ lag ∈ lagsOf buf, correlationAt (segmentOf buf) lag = 0) ∧
    bestLagOf buf = buf.sampleRate / 1000 ∧
    detectedFreqOf buf = (buf.sampleRate : ℝ) / ((buf.sampleRate / 1000 : ℕ) : ℝ) ∧
    (1000 : ℝ) ≤ detectedFreqOf buf ∧
    (∃ r, detectPitch buf = some r ∧
      r.frequency = jsRound1 (detectedFreqOf buf) ∧ 0 < r.frequency ∧
      r.note ∈ noteNames ∧ r.key = r.note ++ " minor") := by
  have hcorr : ∀ lag ∈ lagsOf buf, correlationAt (segmentOf buf) lag = 0 :=
    fun lag _ => correlationAt_silent _ (segment_silent buf hsil) lag
  have hbest : bestLagOf buf = buf.sampleRate / 1000 := bestLag_silent buf hcorr
  have hmin : minLagOf buf ≠ 0 := by
    rw [minLagOf]
    have h1 : 1 ≤ buf.sampleRate / 1000 := by
      calc 1 = 1000 / 1000 := by norm_num
      _ ≤ buf.sampleRate / 1000 := Nat.div_le_div_right hsr
    omega
  have hfreq : detectedFreqOf buf =
      (buf.sampleRate : ℝ) / ((buf.sampleRate / 1000 : ℕ) : ℝ) := by
    rw [detectedFreqOf, hbest]
  have hge : (1000 : ℝ) ≤ detectedFreqOf buf := by
    rw [hfreq]
    have hsrr : (0 : ℝ) < (buf.sampleRate : ℝ) := by
      exact_mod_cast buf.sampleRate_pos
    have hlag0 : (0 : ℝ) < ((buf.sampleRate / 1000 : ℕ) : ℝ) := by
      have h1 : 1 ≤ buf.sampleRate / 1000 := by
        calc 1 = 1000 / 1000 := by norm_num
        _ ≤ buf.sampleRate / 1000 := Nat.div_le_div_right hsr
      exact_mod_cast Nat.lt_of_lt_of_le Nat.zero_lt_one h1
    have hcast : ((buf.sampleRate / 1000 : ℕ) : ℝ) ≤ (buf.sampleRate : ℝ) / 1000 :=
      Nat.cast_div_le
    have heq : (buf.sampleRate : ℝ) / ((buf.sampleRate : ℝ) / 1000) = 1000 := by
      field_simp
    calc (1000 : ℝ) = (buf.sampleRate : ℝ) / ((buf.sampleRate : ℝ) / 1000) := heq.symm
    _ ≤ (buf.sampleRate : ℝ) / ((buf.sampleRate / 1000 : ℕ) : ℝ) := by gcongr
  have hq : keyQualityOf buf = "minor" := by
    rw [keyQualityOf, calculateEnergy_silent buf hsil hne]
    norm_num
  refine ⟨hcorr, hbest, hfreq, hge, ⟨_, detectPitch_isSome buf hmin, rfl, ?_, ?_, ?_⟩⟩
  · exact jsRound1_pos _ (by linarith)
  · exact frequencyToNote_mem _
  · show (frequencyToNote (detectedFreqOf buf)).1 ++ " " ++ keyQualityOf buf =
      (frequencyToNote (detectedFreqOf buf)).1 ++ " minor"
    rw [hq, String.append_assoc]
    rfl

/-- Witness for C10 at a concrete one-sample silent buffer at 1000 Hz. -/
theorem C10_witness : bestLagOf bufZero = bufZero.sampleRate / 1000 := by
  have h := C10_silent_pitch bufZero (by simp [bufZero]) (by simp [bufZero])
    (by simp [bufZero])
  exact h.2.1



/-- C1 counterexample: the whole-buffer RMS division is not guarded.  On the
empty buffer the source computes 0 / 0: the energy field of the analysis
result is NaN (encoded none) rather than a number in [0, 1], and the level
falls through to "high" rather than a neutral default, although
analyzeAudioBuffer does return a record without raising. -/
theorem C1_counterexample :
    analyzeAudioBuffer bufEmpty =
      some { tempo := 120, key := "B minor", note := "B", frequency := 1000,
             energy := none, energyLevel := "high", rhythm := "straight",
             contour := "oscillating" } ∧
    bufEmpty.data = [] ∧ (none : Option ℝ) ≠ some 0 ∧ "high" ≠ "low" :=
  ⟨analyze_bufEmpty, rfl, by simp, by simp⟩

/-- C1 as amended: the envelope normalization divisor is floored at 0.0001,
the rhythm classifier substitutes its default "straight" on sparse input, and
for every nonempty buffer with sample rate at least 1000 Hz the aggregator
returns a complete record: tempo in [60, 200], energy a number in [0, 1],
level, rhythm and contour drawn from their closed enumerations, a note among
the 12 chromatic names and a positive frequency. -/
theorem C1_amended :
    (∀ env : List ℝ, (0.0001 : ℝ) ≤ maxEnvOf env) ∧
    (∀ onsets : List ℝ, onsets.length < 3 → classifyRhythm onsets = "straight") ∧
    (∀ buf : AudioBuffer, buf.data ≠ [] → 1000 ≤ buf.sampleRate →
      ∃ r, analyzeAudioBuffer buf = some r ∧
        (60 ≤ r.tempo ∧ r.tempo ≤ 200) ∧
        (∃ e, r.energy = some e ∧ 0 ≤ e ∧ e ≤ 1) ∧
        r.energyLevel ∈ (["low", "moderate", "high"] : List String) ∧
        r.rhythm ∈ (["straight", "swing", "syncopated"] : List String) ∧
        r.contour ∈ (["ascending", "descending", "oscillating"] : List String) ∧
        r.note ∈ noteNames ∧ 0 < r.frequency) := by
  refine ⟨fun env => le_foldl_max env 0.0001, classifyRhythm_short, ?_⟩
  intro buf hne hsr
  have hhop : hopSizeOf buf.sampleRate ≠ 0 := by
    rw [hopSizeOf]
    have h1 : 10 ≤ buf.sampleRate / 100 := by
      calc 10 = 1000 / 100 := by norm_num
      _ ≤ buf.sampleRate / 100 := Nat.div_le_div_right hsr
    omega
  have hmin : minLagOf buf ≠ 0 := by
    rw [minLagOf]
    have h1 : 1 ≤ buf.sampleRate / 1000 := by
      calc 1 = 1000 / 1000 := by norm_num
      _ ≤ buf.sampleRate / 1000 := Nat.div_le_div_right hsr
    omega
  obtain ⟨t, ht⟩ := detectTempo_isSome buf hhop
  have hp := detectPitch_isSome buf hmin
  refine ⟨{ tempo := t.bpm,
            key := (frequencyToNote (detectedFreqOf buf)).1 ++ " " ++ keyQualityOf buf,
            note := (frequencyToNote (detectedFreqOf buf)).1,
            frequency := jsRound1 (detectedFreqOf buf),
            energy := (calculateEnergy buf).energy,
            energyLevel := (calculateEnergy buf).level,
            rhythm := classifyRhythm t.onsets,
            contour := detectContour buf }, ?_, ?_, ?_, ?_, ?_, ?_, ?_, ?_⟩
  · rw [analyzeAudioBuffer, ht, hp]
  · exact detectTempo_bpm_range buf t ht
  · exact energy_bounds buf hne
  · exact level_mem buf
  · exact classifyRhythm_mem t.onsets
  · exact detectContour_mem buf
  · exact frequencyToNote_mem _
  · exact jsRound1_pos _ (by linarith [detectedFreq_ge_60 buf hmin])

/-- Witness for C1 at a concrete one-sample buffer. -/
theorem C1_witness :
    ∃ r, analyzeAudioBuffer bufZero = some r ∧
      (60 ≤ r.tempo ∧ r.tempo ≤ 200) ∧
      (∃ e, r.energy = some e ∧ 0 ≤ e ∧ e ≤ 1) ∧
      r.energyLevel ∈ (["low", "moderate", "high"] : List String) ∧
      r.rhythm ∈ (["straight", "swing", "syncopated"] : List String) ∧
      r.contour ∈ (["ascending", "descending", "oscillating"] : List String) ∧
      r.note ∈ noteNames ∧ 0 < r.frequency :=
  C1_amended.2.2 bufZero (by simp [bufZero]) (by simp [bufZero])

end Vibehum
